import Mathlib

/-! # Corrade: plugin instance base, enum sets, directory paths

A shallow embedding of `PluginManager/Plugin.h`, `PluginManager/Plugin.cpp`,
`Containers/EnumSet.h` and of `path` and `join` of `Utility/Directory.cpp`.

Pointers are natural numbers, `0` being the null pointer.  A member function
takes the address of its object as the explicit argument `this`.  The calls a
`Plugin` makes on its `AbstractPluginManager` are returned as a list, in the
order in which they are made.
-/

namespace Corrade

namespace PluginManager

/-! ## `Plugin` (Plugin.h, Plugin.cpp) -/

/-- A call made on an `AbstractPluginManager` from plugin code: the two hooks
used by `Plugin`, and the instancer a manager invokes to create an instance. -/
inductive ManagerCall where
  /-- The call `manager->registerInstance(plugin, this, ..)`. -/
  | registerInstance (manager : Nat) (plugin : String) (this : Nat)
  /-- The call `manager->unregisterInstance(plugin, this)`. -/
  | unregisterInstance (manager : Nat) (plugin : String) (this : Nat)
  /-- The call `pluginInstancer(manager, plugin)`. -/
  | pluginInstancer (manager : Nat) (plugin : String)
  deriving DecidableEq, Repr

/-- What `registerInstance` writes through its two out-parameters
`&_configuration` and `&_metadata`, as a function of the manager it is called
on, the plugin name and the instance. -/
abbrev RegisterHook := Nat → String → Nat → Nat × Nat

/-- The data members of `class Plugin`. -/
structure Plugin where
  _manager : Nat
  _plugin : String
  _configuration : Nat
  _metadata : Nat
  deriving DecidableEq, Repr

namespace Plugin

/-- The constructor `Plugin::Plugin(manager, plugin)`: the constructed object
and the manager calls made. -/
def ctor (hook : RegisterHook) (this : Nat) (manager : Nat) (plugin : String) :
    Plugin × List ManagerCall :=
  if manager ≠ 0 then
    ({ _manager := manager, _plugin := plugin,
       _configuration := (hook manager plugin this).1,
       _metadata := (hook manager plugin this).2 },
     [ManagerCall.registerInstance manager plugin this])
  else
    ({ _manager := manager, _plugin := plugin, _configuration := 0, _metadata := 0 }, [])

/-- The destructor `Plugin::~Plugin()`: the manager calls made. -/
def dtor (this : Nat) (p : Plugin) : List ManagerCall :=
  if p._manager ≠ 0 then [ManagerCall.unregisterInstance p._manager p._plugin this] else []

/-- The base implementation `Plugin::canBeDeleted()`. -/
def canBeDeleted (_p : Plugin) : Bool := false

/-- The accessor `Plugin::plugin()`. -/
def plugin (p : Plugin) : String := p._plugin

/-- The accessor `Plugin::metadata()`. -/
def metadata (p : Plugin) : Nat := p._metadata

/-- The accessor `Plugin::configuration()`. -/
def configuration (p : Plugin) : Nat := p._configuration

end Plugin

/-- A concrete plugin class `className` deriving from `Plugin`: whether it
overrides the virtual `canBeDeleted()`, and with what. -/
structure PluginClass where
  canBeDeletedOverride : Option (Plugin → Bool)

/-- An object of a class deriving from `Plugin`. -/
structure PluginObject where
  cls : PluginClass
  base : Plugin

/-- A virtual call of `canBeDeleted()` on an object: the override of its class
when there is one, the implementation of `Plugin` otherwise. -/
def PluginObject.canBeDeleted (o : PluginObject) : Bool :=
  match o.cls.canBeDeletedOverride with
  | some f => f o.base
  | none => Plugin.canBeDeleted o.base

/-- The function `pluginInstancer(manager, plugin)` defined by
`PLUGIN_REGISTER(className, interface)`, that is `new className(manager, plugin)`
with the new object placed at `this`; `className` passes both arguments to the
constructor of `Plugin`. -/
def pluginInstancer (cls : PluginClass) (hook : RegisterHook) (this : Nat)
    (manager : Nat) (plugin : String) : PluginObject × List ManagerCall :=
  let r := Plugin.ctor hook this manager plugin
  ({ cls := cls, base := r.1 }, ManagerCall.pluginInstancer manager plugin :: r.2)

/-! ## Lifetimes of `Plugin` objects -/

/-- An object of class `Plugin` that has been constructed and not yet
destructed: its address, the two arguments its constructor was called with, and
its data members. -/
structure LiveInstance where
  this : Nat
  manager : Nat
  plugin : String
  object : Plugin
  deriving DecidableEq, Repr

/-- One step of a program that creates and destroys `Plugin` objects. -/
inductive LifetimeOp where
  /-- Run `Plugin(manager, plugin)` for a new object at address `this`. -/
  | construct (this : Nat) (manager : Nat) (plugin : String)
  /-- Run `~Plugin()` on the object at address `this`. -/
  | destruct (this : Nat)
  deriving DecidableEq, Repr

/-- The objects alive at some point of a program, and the manager calls made up
to that point, oldest first. -/
structure Execution where
  live : List LiveInstance
  calls : List ManagerCall
  deriving DecidableEq, Repr

namespace Execution

/-- The start of a program: no object, no call. -/
def start : Execution := { live := [], calls := [] }

/-- Run one step.  A construction needs an address that no live object
occupies, a destruction needs a live object; there is no result otherwise. -/
def step (hook : RegisterHook) (e : Execution) : LifetimeOp → Option Execution
  | LifetimeOp.construct this manager plugin =>
    if e.live.any (fun i => i.this == this) then none
    else
      let r := Plugin.ctor hook this manager plugin
      some { live := { this := this, manager := manager, plugin := plugin, object := r.1 } :: e.live,
             calls := e.calls ++ r.2 }
  | LifetimeOp.destruct this =>
    match e.live.find? (fun i => i.this == this) with
    | none => none
    | some i =>
      some { live := e.live.filter (fun j => j.this != this),
             calls := e.calls ++ Plugin.dtor this i.object }

/-- Run a sequence of steps, first to last. -/
def run (hook : RegisterHook) : Execution → List LifetimeOp → Option Execution
  | e, [] => some e
  | e, op :: ops => (step hook e op).bind (fun e1 => run hook e1 ops)

end Execution

/-- Whether a call is `manager->registerInstance(plugin, _)`. -/
def isRegistration (manager : Nat) (plugin : String) : ManagerCall → Bool
  | ManagerCall.registerInstance m p _ => m == manager && p == plugin
  | _ => false

/-- Whether a call is `manager->unregisterInstance(plugin, _)`. -/
def isDeregistration (manager : Nat) (plugin : String) : ManagerCall → Bool
  | ManagerCall.unregisterInstance m p _ => m == manager && p == plugin
  | _ => false

/-- The number of registration calls made on `manager` for `plugin`. -/
def registrations (manager : Nat) (plugin : String) (calls : List ManagerCall) : Nat :=
  calls.countP (isRegistration manager plugin)

/-- The number of deregistration calls made on `manager` for `plugin`. -/
def deregistrations (manager : Nat) (plugin : String) (calls : List ManagerCall) : Nat :=
  calls.countP (isDeregistration manager plugin)

/-- The number of live objects that were constructed with `(manager, plugin)`. -/
def liveCount (manager : Nat) (plugin : String) (live : List LiveInstance) : Nat :=
  live.countP (fun i => i.manager == manager && i.plugin == plugin)

/-- What is true of a running program: the data members `_manager` and
`_plugin` of a live object are the arguments of its construction, no two live
objects share an address, and for a non-null manager the registrations are the
deregistrations plus the live objects. -/
structure Execution.Consistent (e : Execution) : Prop where
  members : ∀ i ∈ e.live, i.object._manager = i.manager ∧ i.object._plugin = i.plugin
  distinct : (e.live.map (fun i => i.this)).Nodup
  balance : ∀ (M : Nat) (N : String), M ≠ 0 →
    registrations M N e.calls = deregistrations M N e.calls + liveCount M N e.live

/-! ## The plugin manager

`Plugin.h` includes `AbstractPluginManager.h`, which is not among the sources:
the manager is modelled from the specification. -/

/-- Modelled from the spec: the result of `load`, `AbstractPluginManager::load`
is missing.  `Loaded` is the success. -/
inductive LoadResult where
  | Loaded
  | AlreadyLoaded
  | CannotOpenPlugin
  | MissingMetadata
  | WrongPluginVersion
  | WrongInterfaceVersion
  | UnresolvedDependency
  deriving DecidableEq, Repr

/-- Modelled from the spec: the `state` of a plugin record, the load states of
`AbstractPluginManager` are missing. -/
inductive LoadState where
  | NotLoaded
  | Loaded
  | LoadFailed (reason : LoadResult)
  deriving DecidableEq, Repr

/-- Modelled from the spec: the result of `unload`,
`AbstractPluginManager::unload` is missing.  `Unloaded` is the success. -/
inductive UnloadResult where
  | Unloaded
  | NotLoaded
  | IsUsed
  | IsRequired
  deriving DecidableEq, Repr

/-- Modelled from the spec: the failure of `instance`,
`AbstractPluginManager::instance` is missing. -/
inductive InstanceError where
  | PluginNotLoaded
  deriving DecidableEq, Repr

/-- Modelled from the spec: the descriptor of a plugin, `PluginMetadata` is
missing.  `address` is where the object lives, the value of a pointer to it. -/
structure PluginMetadata where
  address : Nat
  name : String
  description : String
  interface : String
  depends : List String
  deriving DecidableEq, Repr

/-- Modelled from the spec: the configuration of a plugin, opaque to the
manager, `Utility::Configuration` is missing.  `address` is where the object
lives, the value of a pointer to it. -/
structure PluginConfiguration where
  address : Nat
  deriving DecidableEq, Repr

/-- Modelled from the spec: an entry of the static registry, what
`importStaticPlugin(name, version, interface, instancer)` adds; the registry is
missing.  The factory is the `pluginInstancer` of the class `factory`. -/
structure StaticPluginEntry where
  name : String
  abiVersion : Int
  interface : String
  factory : PluginClass

/-- Modelled from the spec: what a dynamic module exports, the ABI version, the
interface string and the factory; the loader is missing. -/
structure ModuleExports where
  abiVersion : Int
  interface : String
  factory : PluginClass

/-- Modelled from the spec: why a dynamic module does not open, the loader is
missing. -/
inductive OpenFailure where
  | moduleNotFound
  | symbolMissing
  deriving DecidableEq, Repr

/-- Modelled from the spec: what surrounds a manager, the static registry and
the external collaborators that open the module of a name and hand over the
metadata and the configuration of a name; all of them are missing. -/
structure Collaborators where
  staticRegistry : List StaticPluginEntry
  openModule : String → Except OpenFailure ModuleExports
  metadata : String → PluginMetadata
  configuration : String → PluginConfiguration

/-- Modelled from the spec: the record of a plugin name inside a manager, the
plugin table of `AbstractPluginManager` is missing. -/
structure PluginRecord where
  state : LoadState
  metadata : PluginMetadata
  configuration : PluginConfiguration
  factory : PluginClass
  activeInstances : List Nat

/-- Modelled from the spec: a plugin manager, `AbstractPluginManager` is
missing: its own address, the ABI version and the interface string it expects,
and its records by name. -/
structure Manager where
  address : Nat
  abiVersion : Int
  interface : String
  records : List (String × PluginRecord)

/-- The objects of classes deriving from `Plugin` that are alive, by address. -/
abbrev Heap := List (Nat × PluginObject)

/-- The address `new` gives to the next object: not null, and above every
address in use. -/
def Heap.fresh (heap : Heap) : Nat :=
  heap.foldl (fun a o => max a o.1) 0 + 1

namespace Collaborators

/-- Modelled from the spec: step 2 of `load`, the name is looked up in the static
registry and, when absent there, the dynamic module of the name is opened;
`AbstractPluginManager::load` is missing. -/
def resolve (c : Collaborators) (name : String) : Except OpenFailure ModuleExports :=
  match c.staticRegistry.find? (fun e => e.name == name) with
  | some e => Except.ok { abiVersion := e.abiVersion, interface := e.interface, factory := e.factory }
  | none => c.openModule name

end Collaborators

namespace Manager

/-- Modelled from the spec: the record of a name, the plugin table of
`AbstractPluginManager` is missing. -/
def find (m : Manager) (name : String) : Option PluginRecord :=
  m.records.lookup name

/-- Modelled from the spec: the state of a name, `NotLoaded` when it has no
record; `AbstractPluginManager::loadState` is missing. -/
def stateOf (m : Manager) (name : String) : LoadState :=
  match m.find name with
  | some r => r.state
  | none => LoadState.NotLoaded

/-- Modelled from the spec: the active instances of a name, none when it has no
record; the plugin table of `AbstractPluginManager` is missing. -/
def activeInstances (m : Manager) (name : String) : List Nat :=
  match m.find name with
  | some r => r.activeInstances
  | none => []

/-- Modelled from the spec: create or update the record of a name, names being
unique; the plugin table of `AbstractPluginManager` is missing. -/
def store (m : Manager) (name : String) (r : PluginRecord) : Manager :=
  { m with records := (name, r) :: m.records.filter (fun e => e.1 != name) }

/-- Modelled from the spec: the registration hook, which attaches the instance
to the active instances of the record; `AbstractPluginManager::registerInstance`
is missing. -/
def registerInstance (m : Manager) (plugin : String) (this : Nat) : Manager :=
  match m.find plugin with
  | some r => m.store plugin { r with activeInstances := this :: r.activeInstances }
  | none => m

/-- Modelled from the spec: the back-pointers to configuration and metadata
that the registration hook supplies; `AbstractPluginManager::registerInstance`
is missing. -/
def supplied (m : Manager) : RegisterHook :=
  fun _ plugin _ =>
    match m.find plugin with
    | some r => (r.configuration.address, r.metadata.address)
    | none => (0, 0)

/-- Modelled from the spec: the deregistration hook, which removes the instance
from the active instances of the record;
`AbstractPluginManager::unregisterInstance` is missing. -/
def unregisterInstance (m : Manager) (plugin : String) (this : Nat) : Manager :=
  match m.find plugin with
  | some r => m.store plugin { r with activeInstances := r.activeInstances.filter (fun i => i != this) }
  | none => m

/-- Modelled from the spec: the effect on a manager of a call made by plugin
code, a hook called on this manager runs and any other call leaves it as it is;
`AbstractPluginManager` is missing. -/
def handle (m : Manager) : ManagerCall → Manager
  | ManagerCall.registerInstance manager plugin this =>
    if manager = m.address then m.registerInstance plugin this else m
  | ManagerCall.unregisterInstance manager plugin this =>
    if manager = m.address then m.unregisterInstance plugin this else m
  | ManagerCall.pluginInstancer _ _ => m

/-- Modelled from the spec: `load(name)`, steps 1 to 7 of section 4.2;
`AbstractPluginManager::load` is missing.  A version or interface mismatch
leaves the record in `LoadFailed` (step 4 and section 7); the other failures
change nothing. -/
def load (m : Manager) (c : Collaborators) (name : String) : LoadResult × Manager :=
  if m.stateOf name = LoadState.Loaded then (LoadResult.AlreadyLoaded, m)
  else
    match c.resolve name with
    | Except.error OpenFailure.moduleNotFound => (LoadResult.CannotOpenPlugin, m)
    | Except.error OpenFailure.symbolMissing => (LoadResult.MissingMetadata, m)
    | Except.ok candidate =>
      let record : LoadState → PluginRecord := fun st =>
        { state := st, metadata := c.metadata name, configuration := c.configuration name,
          factory := candidate.factory, activeInstances := m.activeInstances name }
      if candidate.abiVersion ≠ m.abiVersion then
        (LoadResult.WrongPluginVersion,
         m.store name (record (LoadState.LoadFailed LoadResult.WrongPluginVersion)))
      else if candidate.interface ≠ m.interface then
        (LoadResult.WrongInterfaceVersion,
         m.store name (record (LoadState.LoadFailed LoadResult.WrongInterfaceVersion)))
      else if (c.metadata name).depends.any (fun d => decide (m.stateOf d ≠ LoadState.Loaded)) then
        (LoadResult.UnresolvedDependency, m)
      else
        (LoadResult.Loaded, m.store name (record LoadState.Loaded))

/-- Modelled from the spec: whether the instance at an address is alive and
answers "not deletable" to the deletability check; step 2 of `unload`,
`AbstractPluginManager::unload` is missing. -/
def refusesDeletion (heap : Heap) (this : Nat) : Bool :=
  match heap.lookup this with
  | some o => !o.canBeDeleted
  | none => false

/-- Modelled from the spec: `unload(name)`, steps 1 to 4 of section 4.2;
`AbstractPluginManager::unload` is missing.  A successful unload leaves no
active instance (section 8). -/
def unload (m : Manager) (heap : Heap) (name : String) : UnloadResult × Manager :=
  match m.find name with
  | none => (UnloadResult.NotLoaded, m)
  | some r =>
    if r.state = LoadState.NotLoaded then (UnloadResult.NotLoaded, m)
    else if r.activeInstances.any (refusesDeletion heap) then (UnloadResult.IsUsed, m)
    else if m.records.any (fun e => e.1 != name && decide (e.2.state = LoadState.Loaded)
        && e.2.metadata.depends.contains name) then (UnloadResult.IsRequired, m)
    else (UnloadResult.Unloaded,
          m.store name { r with state := LoadState.NotLoaded, activeInstances := [] })

end Manager

/-- Modelled from the spec: what `instance(name)` leaves behind, its result,
the manager, the live objects and the calls made;
`AbstractPluginManager::instance` is missing. -/
structure InstanceOutcome where
  result : Except InstanceError Nat
  manager : Manager
  heap : Heap
  calls : List ManagerCall

/-- Modelled from the spec: `instance(name)`, which needs the record in state
`Loaded` and then invokes the stored factory with this manager and the name;
`AbstractPluginManager::instance` is missing.  The factory is the
`pluginInstancer` of `PLUGIN_REGISTER`, and the calls it makes on this manager
take effect in order. -/
def Manager.instanceOf (m : Manager) (heap : Heap) (name : String) : InstanceOutcome :=
  match m.find name with
  | none => { result := Except.error InstanceError.PluginNotLoaded, manager := m, heap := heap,
              calls := [] }
  | some r =>
    if r.state = LoadState.Loaded then
      let this := heap.fresh
      let made := pluginInstancer r.factory m.supplied this m.address name
      { result := Except.ok this, manager := made.2.foldl Manager.handle m,
        heap := (this, made.1) :: heap, calls := made.2 }
    else
      { result := Except.error InstanceError.PluginNotLoaded, manager := m, heap := heap,
        calls := [] }

/-! ## Example data -/

namespace Examples

/-- A plugin class that does not override `canBeDeleted()`. -/
def plainClass : PluginClass := { canBeDeletedOverride := none }

/-- The record of a loaded plugin `"Foo"` with one active instance, at `1`. -/
def fooRecord : PluginRecord :=
  { state := LoadState.Loaded,
    metadata := { address := 21, name := "Foo", description := "", interface := "corrade.example/1.0",
                  depends := [] },
    configuration := { address := 22 },
    factory := plainClass,
    activeInstances := [1] }

/-- A manager at `7` for ABI version `1` and interface `"corrade.example/1.0"`,
with `"Foo"` loaded. -/
def manager : Manager :=
  { address := 7, abiVersion := 1, interface := "corrade.example/1.0",
    records := [("Foo", fooRecord)] }

/-- The instance of `"Foo"` at `1`, as its factory made it. -/
def fooObject : PluginObject :=
  (pluginInstancer plainClass manager.supplied 1 7 "Foo").1

/-- The live objects: the instance of `"Foo"` at `1`. -/
def heap : Heap := [(1, fooObject)]

/-- A static registry with `"Bar"`, of ABI version `1` and of the interface
`"corrade.example/2.0"`, and no dynamic module. -/
def collaborators : Collaborators :=
  { staticRegistry := [{ name := "Bar", abiVersion := 1, interface := "corrade.example/2.0",
                         factory := plainClass }],
    openModule := fun _ => Except.error OpenFailure.moduleNotFound,
    metadata := fun n => { address := 31, name := n, description := "", interface := "",
                           depends := [] },
    configuration := fun _ => { address := 32 } }

end Examples

end PluginManager

namespace Containers

/-! ## `EnumSet` (EnumSet.h)

The member `value`, of the underlying type `U`, is the natural number with the
same bits. -/

/-- The data member of `class EnumSet`. -/
structure EnumSet where
  value : Nat
  deriving DecidableEq, Repr

namespace EnumSet

/-- The constructor `EnumSet()`, the empty set. -/
def empty : EnumSet := { value := 0 }

/-- The operator `operator==`. -/
def opEq (a other : EnumSet) : Bool := a.value == other.value

/-- The operator `operator!=`. -/
def opNe (a other : EnumSet) : Bool := !(opEq a other)

/-- The operator `operator|`, union. -/
def opOr (a other : EnumSet) : EnumSet := { value := a.value ||| other.value }

/-- The operator `operator&`, intersection. -/
def opAnd (a other : EnumSet) : EnumSet := { value := a.value &&& other.value }

/-- The operator `operator>=`: whether `other` is a subset of `a`. -/
def opGe (a other : EnumSet) : Bool := opEq (opAnd a other) other

/-- The operator `operator<=`: whether `other` is a superset of `a`. -/
def opLe (a other : EnumSet) : Bool := opEq (opAnd a other) a

/-- The conversion `operator bool`. -/
def toBool (a : EnumSet) : Bool := a.value != 0

/-- The constructor `EnumSet(T value)`, the set of one enum value; an enum value
is given by `static_cast<UnderlyingType>(value)`. -/
def ofValue (value : Nat) : EnumSet := { value := value }

/-- The operator `operator~`, `EnumSet(fullValue & ~value)`, for an underlying
type of `bits` bits and the template argument `fullValue`: `~value` flips each
of the `bits` bits of `value`. -/
def opNot (bits fullValue : Nat) (a : EnumSet) : EnumSet :=
  { value := fullValue &&& ((2 ^ bits - 1) ^^^ a.value) }

/-- The conversion `operator UnderlyingType`. -/
def toUnderlying (a : EnumSet) : Nat := a.value

end EnumSet

/-! ## `CORRADE_ENUMSET_OPERATORS` (EnumSet.h)

The out-of-class operators, with an enum value as left operand. -/

namespace EnumSetOperators

/-- The operator `operator==(class::Type a, class b)`. -/
def opEq (a : Nat) (b : EnumSet) : Bool := EnumSet.opEq (EnumSet.ofValue a) b

/-- The operator `operator!=(class::Type a, class b)`. -/
def opNe (a : Nat) (b : EnumSet) : Bool := EnumSet.opNe (EnumSet.ofValue a) b

/-- The operator `operator>=(class::Type a, class b)`. -/
def opGe (a : Nat) (b : EnumSet) : Bool := EnumSet.opGe (EnumSet.ofValue a) b

/-- The operator `operator<=(class::Type a, class b)`. -/
def opLe (a : Nat) (b : EnumSet) : Bool := EnumSet.opLe (EnumSet.ofValue a) b

/-- The operator `operator|(class::Type a, class b)`, which is `b | a`. -/
def opOr (a : Nat) (b : EnumSet) : EnumSet := EnumSet.opOr b (EnumSet.ofValue a)

/-- The operator `operator&(class::Type a, class b)`, which is `b & a`. -/
def opAnd (a : Nat) (b : EnumSet) : EnumSet := EnumSet.opAnd b (EnumSet.ofValue a)

/-- The operator `operator~(class::Type a)`. -/
def opNot (bits fullValue : Nat) (a : Nat) : EnumSet :=
  EnumSet.opNot bits fullValue (EnumSet.ofValue a)

end EnumSetOperators

end Containers

namespace Utility

/-! ## `Directory` (Directory.cpp)

A `std::string` is a `String`, the list `data` being its characters in order. -/

namespace Directory

/-- The call `s.substr(pos, n)` of `std::string`, for `pos` within `s`. -/
def substr (s : String) (pos n : Nat) : String := ⟨(s.data.drop pos).take n⟩

/-- The position of the last `c` in a list of characters whose first one is at
position `start`, if there is one. -/
def lastIndexFrom (c : Char) : Nat → List Char → Option Nat
  | _, [] => none
  | start, x :: xs =>
    match lastIndexFrom c (start + 1) xs with
    | some i => some i
    | none => if x = c then some start else none

/-- The call `s.find_last_of(c)` of `std::string`; `none` is `string::npos`. -/
def find_last_of (s : String) (c : Char) : Option Nat := lastIndexFrom c 0 s.data

/-- The function `Directory::path(filename)`. -/
def path (filename : String) : String :=
  if !filename.data.isEmpty && filename.data[filename.data.length - 1]? == some '/' then
    substr filename 0 (filename.data.length - 1)
  else
    match find_last_of filename '/' with
    | none => ""
    | some pos => substr filename 0 pos

/-- The function `Directory::join(path, filename)`. -/
def join (path filename : String) : String :=
  if path.data.isEmpty || (!filename.data.isEmpty && filename.data[0]? == some '/') then
    filename
  else if path.data[path.data.length - 1]? != some '/' then
    path ++ "/" ++ filename
  else
    path ++ filename

end Directory

end Utility

end Corrade

/-! # Properties -/

namespace Corrade

namespace PluginManager

/-- C1: an instance constructed with a non-null manager `M` and name `N` makes,
when destructed, exactly one manager call, the deregistration on `M` with the
name `N` and the instance that its construction passed to the registration on
`M`; an instance constructed with a null manager makes no manager call when
destructed. -/
theorem dtor_deregisters_iff_managed (hook : RegisterHook) (this : Nat) (N : String) :
    (∀ M : Nat, M ≠ 0 →
      (Plugin.ctor hook this M N).2 = [ManagerCall.registerInstance M N this] ∧
      Plugin.dtor this (Plugin.ctor hook this M N).1 =
        [ManagerCall.unregisterInstance M N this]) ∧
    Plugin.dtor this (Plugin.ctor hook this 0 N).1 = [] := by
  refine ⟨fun M hM => ?_, ?_⟩
  · simp [Plugin.ctor, Plugin.dtor, hM]
  · simp [Plugin.ctor, Plugin.dtor]

/-- Witness of C1: manager `7`, name `"Foo"`, object at `3`. -/
theorem dtor_deregisters_iff_managed_witness :
    (7 : Nat) ≠ 0 ∧
    (Plugin.ctor (fun _ _ _ => (11, 12)) 3 7 "Foo").2 =
      [ManagerCall.registerInstance 7 "Foo" 3] ∧
    Plugin.dtor 3 (Plugin.ctor (fun _ _ _ => (11, 12)) 3 7 "Foo").1 =
      [ManagerCall.unregisterInstance 7 "Foo" 3] :=
  ⟨by decide, (dtor_deregisters_iff_managed (fun _ _ _ => (11, 12)) 3 "Foo").1 7 (by decide)⟩

/-- C2: constructing an instance with a non-null manager `M` and name `N` makes
exactly one manager call, the registration on `M` of `N` and the new instance;
afterwards `plugin()` is `N` and `configuration()` and `metadata()` are the
pointers the registration wrote. -/
theorem ctor_registers (hook : RegisterHook) (this M : Nat) (N : String) (hM : M ≠ 0) :
    (Plugin.ctor hook this M N).2 = [ManagerCall.registerInstance M N this] ∧
    (Plugin.ctor hook this M N).1.plugin = N ∧
    (Plugin.ctor hook this M N).1.configuration = (hook M N this).1 ∧
    (Plugin.ctor hook this M N).1.metadata = (hook M N this).2 := by
  simp [Plugin.ctor, Plugin.plugin, Plugin.configuration, Plugin.metadata, hM]

/-- Witness of C2: manager `7`, name `"Foo"`, object at `3`, a registration that
writes the pointers `11` and `12`. -/
theorem ctor_registers_witness :
    (7 : Nat) ≠ 0 ∧
    ((Plugin.ctor (fun _ _ _ => (11, 12)) 3 7 "Foo").2 =
        [ManagerCall.registerInstance 7 "Foo" 3] ∧
      (Plugin.ctor (fun _ _ _ => (11, 12)) 3 7 "Foo").1.plugin = "Foo" ∧
      (Plugin.ctor (fun _ _ _ => (11, 12)) 3 7 "Foo").1.configuration = 11 ∧
      (Plugin.ctor (fun _ _ _ => (11, 12)) 3 7 "Foo").1.metadata = 12) :=
  ⟨by decide, ctor_registers (fun _ _ _ => (11, 12)) 3 7 "Foo" (by decide)⟩

/-- C3: constructing an instance with a null manager makes no manager call and
leaves `configuration()` and `metadata()` null, whatever the name. -/
theorem ctor_standalone (hook : RegisterHook) (this : Nat) (N : String) :
    (Plugin.ctor hook this 0 N).2 = [] ∧
    (Plugin.ctor hook this 0 N).1.configuration = 0 ∧
    (Plugin.ctor hook this 0 N).1.metadata = 0 := by
  simp [Plugin.ctor, Plugin.configuration, Plugin.metadata]

/-- C4: an object whose class does not override `canBeDeleted()` answers
`false` to it, whatever manager and name it was constructed with and whatever
the registration wrote. -/
theorem canBeDeleted_default (cls : PluginClass) (hook : RegisterHook)
    (this manager : Nat) (plugin : String) (h : cls.canBeDeletedOverride = none) :
    PluginObject.canBeDeleted
        { cls := cls, base := (Plugin.ctor hook this manager plugin).1 } = false ∧
    (pluginInstancer cls hook this manager plugin).1.canBeDeleted = false := by
  simp [PluginObject.canBeDeleted, pluginInstancer, h, Plugin.canBeDeleted]

/-- Witness of C4: a class without override, instanced by manager `7` as
`"Foo"`. -/
theorem canBeDeleted_default_witness :
    PluginObject.canBeDeleted
        { cls := { canBeDeletedOverride := none },
          base := (Plugin.ctor (fun _ _ _ => (11, 12)) 3 7 "Foo").1 } = false ∧
    (pluginInstancer { canBeDeletedOverride := none }
        (fun _ _ _ => (11, 12)) 3 7 "Foo").1.canBeDeleted = false :=
  canBeDeleted_default { canBeDeletedOverride := none } (fun _ _ _ => (11, 12)) 3 7 "Foo" rfl

/-- C5, at the input `Plugin(0, "Foo")`: an instance constructed with a null
manager and the name `"Foo"` answers `"Foo"` to `plugin()`, not the empty
string. -/
theorem plugin_of_standalone_keeps_name (hook : RegisterHook) (this : Nat) :
    (Plugin.ctor hook this 0 "Foo").1.plugin = "Foo" ∧
    (Plugin.ctor hook this 0 "Foo").1.plugin ≠ "" := by
  simp [Plugin.ctor, Plugin.plugin]

/-! ## Bookkeeping of active instances -/

theorem Plugin.ctor_managed (hook : RegisterHook) (this manager : Nat) (plugin : String)
    (h : manager ≠ 0) :
    Plugin.ctor hook this manager plugin =
      ({ _manager := manager, _plugin := plugin,
         _configuration := (hook manager plugin this).1,
         _metadata := (hook manager plugin this).2 },
       [ManagerCall.registerInstance manager plugin this]) := by
  simp [Plugin.ctor, h]

theorem Plugin.ctor_null (hook : RegisterHook) (this : Nat) (plugin : String) :
    Plugin.ctor hook this 0 plugin =
      ({ _manager := 0, _plugin := plugin, _configuration := 0, _metadata := 0 }, []) := by
  simp [Plugin.ctor]

theorem countP_filter_this (p : LiveInstance → Bool) (l : List LiveInstance)
    (i : LiveInstance) (hi : i ∈ l) (hd : (l.map (fun j => j.this)).Nodup) :
    (l.filter (fun j => j.this != i.this)).countP p + (if p i then 1 else 0) = l.countP p := by
  induction l with
  | nil => simp at hi
  | cons a l ih =>
    simp only [List.map_cons, List.nodup_cons, List.mem_map, not_exists, not_and] at hd
    rcases List.mem_cons.1 hi with rfl | hmem
    · have hall : l.filter (fun j => j.this != i.this) = l := by
        apply List.filter_eq_self.2
        intro j hj
        have := hd.1 j hj
        simpa [bne_iff_ne] using this
      simp only [List.filter_cons, bne_self_eq_false, Bool.false_eq_true, if_false, hall,
        List.countP_cons]
    · have hne : a.this ≠ i.this := fun h => hd.1 i hmem h.symm
      have := ih hmem hd.2
      simp only [List.filter_cons, bne_iff_ne, ne_eq, hne, not_false_eq_true, if_true,
        List.countP_cons]
      omega

theorem Execution.consistent_start : Execution.start.Consistent :=
  ⟨by simp [Execution.start], by simp [Execution.start],
   by simp [Execution.start, registrations, deregistrations, liveCount]⟩

theorem Execution.consistent_step (hook : RegisterHook) (e e1 : Execution) (op : LifetimeOp)
    (he : e.Consistent) (h : Execution.step hook e op = some e1) : e1.Consistent := by
  cases op with
  | construct this manager plugin =>
    simp only [Execution.step] at h
    split at h
    · exact absurd h (by simp)
    · rename_i hfree
      simp only [Option.some.injEq] at h
      subst h
      have hfree1 : ∀ j ∈ e.live, j.this ≠ this := by
        simpa using hfree
      refine ⟨?_, ?_, ?_⟩
      · intro i hi
        rcases List.mem_cons.1 hi with rfl | hi
        · by_cases hm : manager = 0 <;> simp [Plugin.ctor, hm]
        · exact he.members i hi
      · simp only [List.map_cons, List.nodup_cons, List.mem_map, not_exists, not_and]
        exact ⟨fun j hj => hfree1 j hj, he.distinct⟩
      · intro M N hM
        have hb := he.balance M N hM
        simp only [registrations, deregistrations, liveCount, List.countP_append,
          List.countP_cons] at hb ⊢
        by_cases hm : manager = 0
        · subst hm
          have h1 : ((0 : Nat) == M && plugin == N) = false := by
            have : ¬ (0 : Nat) = M := fun h => hM h.symm
            simp [this]
          rw [Plugin.ctor_null]
          simp [h1, hb]
        · rw [Plugin.ctor_managed hook this manager plugin hm]
          by_cases hmatch : manager = M ∧ plugin = N
          · simp [isRegistration, isDeregistration, hmatch.1, hmatch.2, hb]
            omega
          · have h1 : (manager == M && plugin == N) = false := by
              simpa using hmatch
            simp [isRegistration, isDeregistration, h1, hb]
  | destruct this =>
    simp only [Execution.step] at h
    split at h
    · exact absurd h (by simp)
    · rename_i i hfind
      simp only [Option.some.injEq] at h
      subst h
      have himem : i ∈ e.live := List.mem_of_find?_eq_some hfind
      have hithis : i.this = this := by
        have := List.find?_some hfind
        simpa using this
      subst hithis
      refine ⟨?_, ?_, ?_⟩
      · intro j hj
        exact he.members j (List.mem_of_mem_filter hj)
      · exact (List.filter_sublist _).map _ |>.nodup he.distinct
      · intro M N hM
        have hb := he.balance M N hM
        have hc := countP_filter_this (fun j => j.manager == M && j.plugin == N) e.live i himem
          he.distinct
        have hmem := he.members i himem
        simp only [registrations, deregistrations, liveCount, List.countP_append] at hb ⊢
        by_cases hm : i.manager = 0
        · have h1 : (i.manager == M && i.plugin == N) = false := by
            have : ¬ i.manager = M := fun h => hM (h ▸ hm)
            simp [this]
          simp only [h1, Bool.false_eq_true, if_false, Nat.add_zero] at hc
          simp [Plugin.dtor, hmem.1, hm, hc, hb]
        · by_cases hmatch : i.manager = M ∧ i.plugin = N
          · have h1 : (i.manager == M && i.plugin == N) = true := by simp [hmatch.1, hmatch.2]
            simp only [h1, if_true] at hc
            have hM1 : ¬ M = 0 := hM
            simp [Plugin.dtor, hmem.1, hmem.2, hmatch.1, hmatch.2, hM1, isRegistration,
              isDeregistration]
            omega
          · have h1 : (i.manager == M && i.plugin == N) = false := by simpa using hmatch
            simp only [h1, Bool.false_eq_true, if_false, Nat.add_zero] at hc
            simp [Plugin.dtor, hmem.1, hmem.2, hm, isRegistration, isDeregistration, h1, hc, hb]

theorem Execution.consistent_run (hook : RegisterHook) (ops : List LifetimeOp) :
    ∀ (e e1 : Execution), e.Consistent → Execution.run hook e ops = some e1 → e1.Consistent := by
  induction ops with
  | nil =>
    intro e e1 he h
    simp only [Execution.run, Option.some.injEq] at h
    exact h ▸ he
  | cons op ops ih =>
    intro e e1 he h
    simp only [Execution.run] at h
    cases hs : Execution.step hook e op with
    | none => simp [hs] at h
    | some e2 =>
      simp only [hs, Option.some_bind] at h
      exact ih e2 e1 (Execution.consistent_step hook e e2 op he hs) h

/-- C6: after every sequence of constructions and destructions, and for every
non-null manager `M` and name `N`, the deregistrations on `M` for `N` are no
more than the registrations, and the registrations less the deregistrations are
the instances constructed with `(M, N)` and not yet destructed. -/
theorem active_instances_exact (hook : RegisterHook) (ops : List LifetimeOp)
    (e : Execution) (M : Nat) (N : String) (hM : M ≠ 0)
    (hrun : Execution.run hook Execution.start ops = some e) :
    deregistrations M N e.calls ≤ registrations M N e.calls ∧
    registrations M N e.calls - deregistrations M N e.calls = liveCount M N e.live := by
  have h := (Execution.consistent_run hook ops _ e Execution.consistent_start hrun).balance M N hM
  omega

/-- Witness of C6: two instances of `"Foo"` and one of `"Bar"` are constructed
with manager `7`, then the first is destructed: two registrations and one
deregistration for `"Foo"`, one live instance. -/
theorem active_instances_exact_witness :
    (7 : Nat) ≠ 0 ∧
    Execution.run (fun _ _ _ => (11, 12)) Execution.start
      [LifetimeOp.construct 1 7 "Foo", LifetimeOp.construct 2 7 "Foo",
       LifetimeOp.construct 3 7 "Bar", LifetimeOp.destruct 1] =
      some { live := [{ this := 3, manager := 7, plugin := "Bar", object := ⟨7, "Bar", 11, 12⟩ },
                      { this := 2, manager := 7, plugin := "Foo", object := ⟨7, "Foo", 11, 12⟩ }],
             calls := [ManagerCall.registerInstance 7 "Foo" 1,
                       ManagerCall.registerInstance 7 "Foo" 2,
                       ManagerCall.registerInstance 7 "Bar" 3,
                       ManagerCall.unregisterInstance 7 "Foo" 1] } ∧
    deregistrations 7 "Foo"
        [ManagerCall.registerInstance 7 "Foo" 1, ManagerCall.registerInstance 7 "Foo" 2,
         ManagerCall.registerInstance 7 "Bar" 3, ManagerCall.unregisterInstance 7 "Foo" 1] ≤
      registrations 7 "Foo"
        [ManagerCall.registerInstance 7 "Foo" 1, ManagerCall.registerInstance 7 "Foo" 2,
         ManagerCall.registerInstance 7 "Bar" 3, ManagerCall.unregisterInstance 7 "Foo" 1] ∧
    registrations 7 "Foo"
        [ManagerCall.registerInstance 7 "Foo" 1, ManagerCall.registerInstance 7 "Foo" 2,
         ManagerCall.registerInstance 7 "Bar" 3, ManagerCall.unregisterInstance 7 "Foo" 1] -
      deregistrations 7 "Foo"
        [ManagerCall.registerInstance 7 "Foo" 1, ManagerCall.registerInstance 7 "Foo" 2,
         ManagerCall.registerInstance 7 "Bar" 3, ManagerCall.unregisterInstance 7 "Foo" 1] =
      liveCount 7 "Foo"
        [{ this := 3, manager := 7, plugin := "Bar", object := ⟨7, "Bar", 11, 12⟩ },
         { this := 2, manager := 7, plugin := "Foo", object := ⟨7, "Foo", 11, 12⟩ }] :=
  ⟨by decide, by decide,
   active_instances_exact (fun _ _ _ => (11, 12))
     [LifetimeOp.construct 1 7 "Foo", LifetimeOp.construct 2 7 "Foo",
      LifetimeOp.construct 3 7 "Bar", LifetimeOp.destruct 1]
     { live := [{ this := 3, manager := 7, plugin := "Bar", object := ⟨7, "Bar", 11, 12⟩ },
                { this := 2, manager := 7, plugin := "Foo", object := ⟨7, "Foo", 11, 12⟩ }],
       calls := [ManagerCall.registerInstance 7 "Foo" 1,
                 ManagerCall.registerInstance 7 "Foo" 2,
                 ManagerCall.registerInstance 7 "Bar" 3,
                 ManagerCall.unregisterInstance 7 "Foo" 1] }
     7 "Foo" (by decide) (by decide)⟩

/-! ## The manager -/

theorem Manager.find_store (m : Manager) (name : String) (r : PluginRecord) :
    (m.store name r).find name = some r := by
  simp [Manager.store, Manager.find, List.lookup]

theorem Manager.stateOf_store (m : Manager) (name : String) (r : PluginRecord) :
    (m.store name r).stateOf name = r.state := by
  simp [Manager.stateOf, Manager.find_store]

theorem Manager.activeInstances_store (m : Manager) (name : String) (r : PluginRecord) :
    (m.store name r).activeInstances name = r.activeInstances := by
  simp [Manager.activeInstances, Manager.find_store]

theorem Heap.le_foldl_max (heap : Heap) :
    ∀ a : Nat, a ≤ heap.foldl (fun a o => max a o.1) a ∧
      ∀ e ∈ heap, e.1 ≤ heap.foldl (fun a o => max a o.1) a := by
  induction heap with
  | nil => intro a; simp
  | cons x xs ih =>
    intro a
    have h := ih (max a x.1)
    simp only [List.foldl_cons, List.mem_cons, forall_eq_or_imp]
    refine ⟨le_trans (le_max_left _ _) h.1, le_trans (le_max_right _ _) h.1, h.2⟩

theorem Heap.lookup_eq_none (heap : Heap) (k : Nat) (h : ∀ e ∈ heap, e.1 ≠ k) :
    List.lookup k heap = none := by
  induction heap with
  | nil => rfl
  | cons x xs ih =>
    obtain ⟨x1, x2⟩ := x
    have hx : ¬ k = x1 := fun hk => h (x1, x2) (List.mem_cons_self _ _) hk.symm
    have hx1 : (k == x1) = false := by simpa using hx
    simp only [List.lookup, hx1]
    exact ih (fun e he => h e (List.mem_cons_of_mem _ he))

theorem Heap.lookup_fresh (heap : Heap) : List.lookup heap.fresh heap = none := by
  apply Heap.lookup_eq_none
  intro e he hk
  have := (Heap.le_foldl_max heap 0).2 e he
  simp only [Heap.fresh] at hk
  omega

/-- C7: when the record of a name is `Loaded` and one of its active instances
is alive and answers `false` to `canBeDeleted()`, `unload(name)` returns
`IsUsed` and leaves the manager as it was, so the state is still `Loaded` and
the active instances are the same; this is so whenever the class of such an
instance does not override `canBeDeleted()`. -/
theorem unload_isUsed (m : Manager) (heap : Heap) (name : String) (r : PluginRecord)
    (i : Nat) (o : PluginObject)
    (hrec : m.find name = some r) (hstate : r.state = LoadState.Loaded)
    (hact : i ∈ r.activeInstances) (hlive : List.lookup i heap = some o)
    (hrefuse : o.canBeDeleted = false ∨ o.cls.canBeDeletedOverride = none) :
    (m.unload heap name).1 = UnloadResult.IsUsed ∧
    (m.unload heap name).2 = m ∧
    (m.unload heap name).2.stateOf name = LoadState.Loaded ∧
    (m.unload heap name).2.activeInstances name = r.activeInstances := by
  have hno : o.canBeDeleted = false := by
    rcases hrefuse with h | h
    · exact h
    · simp [PluginObject.canBeDeleted, h, Plugin.canBeDeleted]
  have hany : r.activeInstances.any (Manager.refusesDeletion heap) = true := by
    apply List.any_eq_true.2
    exact ⟨i, hact, by simp [Manager.refusesDeletion, hlive, hno]⟩
  have hu : m.unload heap name = (UnloadResult.IsUsed, m) := by
    simp [Manager.unload, hrec, hstate, hany]
  simp [hu, Manager.stateOf, Manager.activeInstances, hrec, hstate]

/-- Witness of C7: `"Foo"` is loaded and its instance at `1` is of a class that
does not override `canBeDeleted()`. -/
theorem unload_isUsed_witness :
    Examples.manager.find "Foo" = some Examples.fooRecord ∧
    Examples.fooRecord.state = LoadState.Loaded ∧
    1 ∈ Examples.fooRecord.activeInstances ∧
    List.lookup 1 Examples.heap = some Examples.fooObject ∧
    Examples.fooObject.cls.canBeDeletedOverride = none ∧
    (Examples.manager.unload Examples.heap "Foo").1 = UnloadResult.IsUsed ∧
    (Examples.manager.unload Examples.heap "Foo").2 = Examples.manager ∧
    (Examples.manager.unload Examples.heap "Foo").2.stateOf "Foo" = LoadState.Loaded ∧
    (Examples.manager.unload Examples.heap "Foo").2.activeInstances "Foo" =
      Examples.fooRecord.activeInstances :=
  ⟨rfl, rfl, by decide, rfl, rfl,
   unload_isUsed Examples.manager Examples.heap "Foo" Examples.fooRecord 1 Examples.fooObject
     rfl rfl (by decide) rfl (Or.inr rfl)⟩

/-- C8: when `load(name)` reads a candidate, the record of the name not being
`Loaded` and the name resolving to the candidate, and the ABI version or the
interface string of the candidate differs from what the manager expects, the
result is `WrongPluginVersion` if the ABI version differs and
`WrongInterfaceVersion` if only the interface string differs, and afterwards the
record is not `Loaded`. -/
theorem load_exact_match (m : Manager) (c : Collaborators) (name : String)
    (candidate : ModuleExports)
    (hstate : m.stateOf name ≠ LoadState.Loaded)
    (hres : c.resolve name = Except.ok candidate)
    (hdiff : candidate.abiVersion ≠ m.abiVersion ∨ candidate.interface ≠ m.interface) :
    (candidate.abiVersion ≠ m.abiVersion →
      (m.load c name).1 = LoadResult.WrongPluginVersion) ∧
    (candidate.abiVersion = m.abiVersion →
      (m.load c name).1 = LoadResult.WrongInterfaceVersion) ∧
    (m.load c name).2.stateOf name ≠ LoadState.Loaded := by
  by_cases habi : candidate.abiVersion = m.abiVersion
  · have hif : candidate.interface ≠ m.interface := by
      rcases hdiff with h | h
      · exact absurd habi h
      · exact h
    simp [Manager.load, hstate, hres, habi, hif, Manager.stateOf_store]
  · simp [Manager.load, hstate, hres, habi, Manager.stateOf_store]

/-- Witness of C8: `"Bar"` is in the static registry with the expected ABI
version `1` and the interface `"corrade.example/2.0"`, the manager expects
`"corrade.example/1.0"`. -/
theorem load_exact_match_witness :
    Examples.manager.stateOf "Bar" ≠ LoadState.Loaded ∧
    (Examples.manager.load Examples.collaborators "Bar").1 =
      LoadResult.WrongInterfaceVersion ∧
    (Examples.manager.load Examples.collaborators "Bar").2.stateOf "Bar" ≠ LoadState.Loaded :=
  ⟨by decide,
   (load_exact_match Examples.manager Examples.collaborators "Bar"
      { abiVersion := 1, interface := "corrade.example/2.0", factory := Examples.plainClass }
      (by decide) rfl (Or.inr (by decide))).2.1 rfl,
   (load_exact_match Examples.manager Examples.collaborators "Bar"
      { abiVersion := 1, interface := "corrade.example/2.0", factory := Examples.plainClass }
      (by decide) rfl (Or.inr (by decide))).2.2⟩

/-- C9: `instance(name)` succeeds exactly when the record of the name is
`Loaded`.  When it is, the stored factory is invoked once with this manager and
the name, the object it makes is new, is the one returned, and is registered
among the active instances of the name; when it is not, the result is
`PluginNotLoaded`, no call is made, and the manager and the live objects are as
before. -/
theorem instance_iff_loaded (m : Manager) (heap : Heap) (name : String)
    (hm : m.address ≠ 0) :
    ((∃ i, (m.instanceOf heap name).result = Except.ok i) ↔
      m.stateOf name = LoadState.Loaded) ∧
    (m.stateOf name = LoadState.Loaded →
      ∃ r, m.find name = some r ∧
        (m.instanceOf heap name).result = Except.ok heap.fresh ∧
        (m.instanceOf heap name).calls =
          [ManagerCall.pluginInstancer m.address name,
           ManagerCall.registerInstance m.address name heap.fresh] ∧
        List.lookup heap.fresh heap = none ∧
        (m.instanceOf heap name).heap =
          (heap.fresh, (pluginInstancer r.factory m.supplied heap.fresh m.address name).1)
            :: heap ∧
        (m.instanceOf heap name).manager.activeInstances name =
          heap.fresh :: m.activeInstances name) ∧
    (m.stateOf name ≠ LoadState.Loaded →
      (m.instanceOf heap name).result = Except.error InstanceError.PluginNotLoaded ∧
      (m.instanceOf heap name).calls = [] ∧
      (m.instanceOf heap name).manager = m ∧
      (m.instanceOf heap name).heap = heap) := by
  cases hrec : m.find name with
  | none =>
    simp [Manager.instanceOf, Manager.stateOf, hrec]
  | some r =>
    by_cases hst : r.state = LoadState.Loaded
    · have hcalls : (pluginInstancer r.factory m.supplied heap.fresh m.address name).2 =
          [ManagerCall.pluginInstancer m.address name,
           ManagerCall.registerInstance m.address name heap.fresh] := by
        simp [pluginInstancer, Plugin.ctor_managed _ _ _ _ hm]
      simp [Manager.instanceOf, Manager.stateOf, hrec, hst, hcalls, Manager.handle,
        Manager.registerInstance, Manager.activeInstances, Manager.find_store,
        Heap.lookup_fresh]
    · simp [Manager.instanceOf, Manager.stateOf, hrec, hst]

/-- Witness of C9: the manager at `7` has `"Foo"` loaded and no record of
`"Bar"`; the next free address is `2`. -/
theorem instance_iff_loaded_witness :
    Examples.manager.address ≠ 0 ∧
    (Examples.manager.instanceOf Examples.heap "Foo").result = Except.ok 2 ∧
    (Examples.manager.instanceOf Examples.heap "Foo").calls =
      [ManagerCall.pluginInstancer 7 "Foo", ManagerCall.registerInstance 7 "Foo" 2] ∧
    (Examples.manager.instanceOf Examples.heap "Foo").manager.activeInstances "Foo" = [2, 1] ∧
    (Examples.manager.instanceOf Examples.heap "Bar").result =
      Except.error InstanceError.PluginNotLoaded ∧
    (Examples.manager.instanceOf Examples.heap "Bar").calls = [] := by
  have hFoo :=
    (instance_iff_loaded Examples.manager Examples.heap "Foo" (by decide)).2.1 (by decide)
  have hBar :=
    (instance_iff_loaded Examples.manager Examples.heap "Bar" (by decide)).2.2 (by decide)
  obtain ⟨r, _, h1, h2, _, _, h3⟩ := hFoo
  exact ⟨by decide, h1, h2, h3, hBar.1, hBar.2.1⟩

end PluginManager

namespace Containers

/-! ## Enum sets -/

/-- C10: `a >= b` is true exactly when every bit set in the value of `b` is set
in the value of `a`, and it is computed as `(a & b) == b`. -/
theorem EnumSet.opGe_iff_subset (a b : EnumSet) :
    (a.opGe b = true ↔ ∀ i : Nat, b.value.testBit i = true → a.value.testBit i = true) ∧
    a.opGe b = (a.opAnd b).opEq b := by
  refine ⟨?_, rfl⟩
  simp only [EnumSet.opGe, EnumSet.opEq, EnumSet.opAnd, beq_iff_eq]
  constructor
  · intro h i hb
    have := congrArg (fun n => n.testBit i) h
    simp only [Nat.testBit_land, hb, Bool.and_true] at this
    exact this
  · intro h
    apply Nat.eq_of_testBit_eq
    intro i
    rw [Nat.testBit_land]
    cases hb : b.value.testBit i with
    | false => simp
    | true => simp [h i hb]

theorem land_eq_left_iff (x y : Nat) :
    x &&& y = x ↔ ∀ i : Nat, x.testBit i = true → y.testBit i = true := by
  constructor
  · intro h i hx
    have := congrArg (fun n => n.testBit i) h
    simp only [Nat.testBit_land, hx, Bool.true_and] at this
    exact this
  · intro h
    apply Nat.eq_of_testBit_eq
    intro i
    rw [Nat.testBit_land]
    cases hx : x.testBit i with
    | false => simp
    | true => simp [h i hx]

theorem testBit_lt_of_lt_two_pow (x bits i : Nat) (hx : x < 2 ^ bits)
    (hi : x.testBit i = true) : i < bits := by
  by_contra hge
  have hle : bits ≤ i := Nat.le_of_not_lt hge
  have hlt : x < 2 ^ i := lt_of_lt_of_le hx (Nat.pow_le_pow_right (by decide) hle)
  rw [Nat.testBit_lt_two_pow hlt] at hi
  exact Bool.false_ne_true hi

theorem EnumSet.testBit_opNot (bits fullValue : Nat) (a : EnumSet) (hfull : fullValue < 2 ^ bits)
    (i : Nat) :
    (a.opNot bits fullValue).value.testBit i = (fullValue.testBit i && !a.value.testBit i) := by
  simp only [EnumSet.opNot, Nat.testBit_land, Nat.testBit_xor, Nat.testBit_two_pow_sub_one]
  cases hf : fullValue.testBit i with
  | false => simp
  | true =>
    have hi : i < bits := testBit_lt_of_lt_two_pow fullValue bits i hfull hf
    simp [hi]

/-- C11: `a <= b` is true exactly when `(a & b) == a`, which is so exactly when
`b >= a`, and exactly when every bit set in the value of `a` is set in the value
of `b`. -/
theorem EnumSet.opLe_iff_superset (a b : EnumSet) :
    (a.opLe b = true ↔ (a.opAnd b).opEq a = true) ∧
    ((a.opAnd b).opEq a = true ↔ b.opGe a = true) ∧
    a.opLe b = b.opGe a ∧
    (a.opLe b = true ↔ ∀ i : Nat, a.value.testBit i = true → b.value.testBit i = true) := by
  have hcomm : a.opLe b = b.opGe a := by
    simp only [EnumSet.opLe, EnumSet.opGe, EnumSet.opAnd, EnumSet.opEq, Nat.land_comm]
  refine ⟨Iff.rfl, ?_, hcomm, ?_⟩
  · have h : (a.opAnd b).opEq a = a.opLe b := rfl
    rw [h, hcomm]
  · simp only [EnumSet.opLe, EnumSet.opEq, EnumSet.opAnd, beq_iff_eq]
    exact land_eq_left_iff a.value b.value

theorem EnumSet.opNot_bits_and_union (bits fullValue : Nat) (a : EnumSet)
    (hfull : fullValue < 2 ^ bits) :
    (∀ i : Nat, (a.opNot bits fullValue).value.testBit i =
      (fullValue.testBit i && !a.value.testBit i)) ∧
    a.opAnd (a.opNot bits fullValue) = EnumSet.empty ∧
    (a.opAnd (a.opNot bits fullValue)).toBool = false ∧
    (a.opOr (a.opNot bits fullValue)).toUnderlying = a.value ||| fullValue ∧
    ((a.opOr (a.opNot bits fullValue)).toUnderlying = fullValue ↔
      ∀ i : Nat, a.value.testBit i = true → fullValue.testBit i = true) := by
  have hbits := EnumSet.testBit_opNot bits fullValue a hfull
  have hand : a.opAnd (a.opNot bits fullValue) = EnumSet.empty := by
    have hv : a.value &&& (a.opNot bits fullValue).value = 0 := by
      apply Nat.eq_of_testBit_eq
      intro i
      rw [Nat.testBit_land, hbits i]
      cases a.value.testBit i <;> simp
    simp only [EnumSet.opAnd, EnumSet.empty, hv]
  have hor : (a.opOr (a.opNot bits fullValue)).toUnderlying = a.value ||| fullValue := by
    simp only [EnumSet.opOr, EnumSet.toUnderlying]
    apply Nat.eq_of_testBit_eq
    intro i
    rw [Nat.testBit_lor, Nat.testBit_lor, hbits i]
    cases a.value.testBit i <;> simp
  refine ⟨hbits, hand, ?_, hor, ?_⟩
  · rw [hand]; rfl
  · rw [hor]
    constructor
    · intro h i ha
      have := congrArg (fun n => n.testBit i) h
      simp only [Nat.testBit_lor, ha, Bool.true_or] at this
      exact this.symm
    · intro h
      apply Nat.eq_of_testBit_eq
      intro i
      rw [Nat.testBit_lor]
      cases ha : a.value.testBit i with
      | false => simp
      | true => simp [h i ha]

/-- C12: for an underlying type of `bits` bits and `fullValue` all enum values
together, so that every bit of a set `a` is a bit of `fullValue`
(`a.value & fullValue` is `a.value`): `~a` has exactly the bits of `fullValue`
that are not in `a`, `a & ~a` is the empty set and converts to `false`, and
`a | ~a` is the set of underlying value `fullValue`. -/
theorem EnumSet.opNot_complement (bits fullValue : Nat) (a : EnumSet)
    (hfull : fullValue < 2 ^ bits) (hset : a.value &&& fullValue = a.value) :
    (∀ i : Nat, (a.opNot bits fullValue).value.testBit i =
      (fullValue.testBit i && !a.value.testBit i)) ∧
    a.opAnd (a.opNot bits fullValue) = EnumSet.empty ∧
    (a.opAnd (a.opNot bits fullValue)).toBool = false ∧
    a.opOr (a.opNot bits fullValue) = { value := fullValue } ∧
    (a.opOr (a.opNot bits fullValue)).toUnderlying = fullValue := by
  have h := EnumSet.opNot_bits_and_union bits fullValue a hfull
  have hval : (a.opOr (a.opNot bits fullValue)).toUnderlying = fullValue :=
    h.2.2.2.2.2 ((land_eq_left_iff a.value fullValue).1 hset)
  refine ⟨h.1, h.2.1, h.2.2.1, ?_, hval⟩
  have hv : (a.opOr (a.opNot bits fullValue)).value = fullValue := hval
  cases hc : a.opOr (a.opNot bits fullValue) with
  | mk v =>
    rw [hc] at hv
    simp only at hv
    rw [hv]

/-- Witness of C12: an 8-bit type with `fullValue` `15`, the enum values `1`,
`2`, `4` and `8`, and the set of the values `1` and `4`. -/
theorem EnumSet.opNot_complement_witness :
    (15 : Nat) < 2 ^ 8 ∧ (5 : Nat) &&& 15 = 5 ∧
    ((EnumSet.opNot 8 15 { value := 5 }).value = 10 ∧
      EnumSet.opAnd { value := 5 } (EnumSet.opNot 8 15 { value := 5 }) = EnumSet.empty ∧
      (EnumSet.opAnd { value := 5 } (EnumSet.opNot 8 15 { value := 5 })).toBool = false ∧
      EnumSet.opOr { value := 5 } (EnumSet.opNot 8 15 { value := 5 }) = { value := 15 } ∧
      (EnumSet.opOr { value := 5 } (EnumSet.opNot 8 15 { value := 5 })).toUnderlying = 15) :=
  ⟨by decide, by decide, by decide,
   (EnumSet.opNot_complement 8 15 { value := 5 } (by decide) (by decide)).2.1,
   (EnumSet.opNot_complement 8 15 { value := 5 } (by decide) (by decide)).2.2.1,
   (EnumSet.opNot_complement 8 15 { value := 5 } (by decide) (by decide)).2.2.2.1,
   (EnumSet.opNot_complement 8 15 { value := 5 } (by decide) (by decide)).2.2.2.2⟩

/-- C13: each out-of-class operator with the enum value `v` as left operand
gives what the member operator gives on the one-element set `EnumSet(v)` as left
operand, also `|` and `&`, which are computed with the operands swapped. -/
theorem EnumSetOperators.agree_with_members (bits fullValue : Nat) (v : Nat) (s : EnumSet) :
    EnumSetOperators.opEq v s = (EnumSet.ofValue v).opEq s ∧
    EnumSetOperators.opNe v s = (EnumSet.ofValue v).opNe s ∧
    EnumSetOperators.opGe v s = (EnumSet.ofValue v).opGe s ∧
    EnumSetOperators.opLe v s = (EnumSet.ofValue v).opLe s ∧
    EnumSetOperators.opOr v s = (EnumSet.ofValue v).opOr s ∧
    EnumSetOperators.opAnd v s = (EnumSet.ofValue v).opAnd s ∧
    EnumSetOperators.opNot bits fullValue v = (EnumSet.ofValue v).opNot bits fullValue := by
  refine ⟨rfl, rfl, rfl, rfl, ?_, ?_, rfl⟩
  · simp only [EnumSetOperators.opOr, EnumSet.opOr, Nat.lor_comm]
  · simp only [EnumSetOperators.opAnd, EnumSet.opAnd, Nat.land_comm]

end Containers

end Corrade

namespace Corrade

namespace Utility

namespace Directory

/-! ## Directory paths -/

theorem isEmpty_data_iff (s : String) : s.data.isEmpty = true ↔ s = "" := by
  rw [String.ext_iff]
  simp [List.isEmpty_iff]

theorem startsWithSlash_iff (s : String) :
    (!s.data.isEmpty && s.data[0]? == some '/') = true ↔ s.data.head? = some '/' := by
  rw [List.head?_eq_getElem?]
  cases h : s.data with
  | nil => simp
  | cons x xs => simp

theorem endsWithSlash_iff (s : String) :
    (s.data[s.data.length - 1]? == some '/') = true ↔ s.data.getLast? = some '/' := by
  rw [List.getLast?_eq_getElem?]
  simp

theorem join_of_absolute (path filename : String)
    (h : path = "" ∨ filename.data.head? = some '/') : join path filename = filename := by
  have hc : (path.data.isEmpty || (!filename.data.isEmpty && filename.data[0]? == some '/'))
      = true := by
    rcases h with h | h
    · simp [(isEmpty_data_iff path).2 h]
    · simp only [(startsWithSlash_iff filename).2 h, Bool.or_true]
  simp only [join, hc, if_true]

theorem join_of_relative (path filename : String)
    (hp : path ≠ "") (hf : filename.data.head? ≠ some '/') :
    join path filename =
      if path.data.getLast? ≠ some '/' then path ++ "/" ++ filename else path ++ filename := by
  have h1 : path.data.isEmpty = false := by
    cases h : path.data.isEmpty with
    | false => rfl
    | true => exact absurd ((isEmpty_data_iff path).1 h) hp
  have h2 : (!filename.data.isEmpty && filename.data[0]? == some '/') = false := by
    cases h : (!filename.data.isEmpty && filename.data[0]? == some '/') with
    | false => rfl
    | true => exact absurd ((startsWithSlash_iff filename).1 h) hf
  have hc : (path.data.isEmpty || (!filename.data.isEmpty && filename.data[0]? == some '/'))
      = false := by
    rw [h1, h2]; rfl
  simp only [join, hc, Bool.false_eq_true, if_false]
  by_cases hl : path.data.getLast? = some '/'
  · have hb := (endsWithSlash_iff path).2 hl
    rw [if_neg (not_not.2 hl)]
    simp only [bne, hb, Bool.not_true, Bool.false_eq_true, if_false]
  · have hb : (path.data[path.data.length - 1]? == some '/') = false := by
      cases h : (path.data[path.data.length - 1]? == some '/') with
      | false => rfl
      | true => exact absurd ((endsWithSlash_iff path).1 h) hl
    rw [if_pos hl]
    simp only [bne, hb, Bool.not_false, if_true]

/-- C14: `join(path, filename)` is `filename` when `path` is empty or `filename`
starts with `/`; otherwise it is `path`, one `/` and `filename` when `path` does
not end in `/`, and `path` and `filename` with nothing between them when it
does; so for a `path` that is not empty and does not end in `/` and a `filename`
that does not start with `/`, `join(path, filename)` is
`join(path + "/", filename)`. -/
theorem join_spec (path filename : String) :
    ((path = "" ∨ filename.data.head? = some '/') → join path filename = filename) ∧
    (path ≠ "" → filename.data.head? ≠ some '/' →
      (path.data.getLast? ≠ some '/' → join path filename = path ++ "/" ++ filename) ∧
      (path.data.getLast? = some '/' → join path filename = path ++ filename) ∧
      (path.data.getLast? ≠ some '/' → join path filename = join (path ++ "/") filename)) := by
  refine ⟨join_of_absolute path filename, fun hp hf => ?_⟩
  have hrel := join_of_relative path filename hp hf
  refine ⟨fun hl => ?_, fun hl => ?_, fun hl => ?_⟩
  · rw [hrel, if_pos hl]
  · rw [hrel, if_neg (not_not.2 hl)]
  · have hp1 : path ++ "/" ≠ "" := by
      intro h
      have := congrArg String.data h
      simp at this
    have hl1 : (path ++ "/").data.getLast? = some '/' := by
      rw [String.data_append]
      exact List.getLast?_concat path.data
    rw [hrel, if_pos hl, join_of_relative (path ++ "/") filename hp1 hf,
      if_neg (not_not.2 hl1)]

/-- Witness of C14: `"usr"` or `"usr/"` joined with `"lib"`, and the absolute
`"/lib"`. -/
theorem join_spec_witness :
    join "usr" "/lib" = "/lib" ∧
    join "usr" "lib" = "usr/lib" ∧
    join "usr/" "lib" = "usr/lib" ∧
    join "usr" "lib" = join ("usr" ++ "/") "lib" :=
  ⟨(join_spec "usr" "/lib").1 (Or.inr (by decide)),
   ((join_spec "usr" "lib").2 (by decide) (by decide)).1 (by decide),
   ((join_spec "usr/" "lib").2 (by decide) (by decide)).2.1 (by decide),
   ((join_spec "usr" "lib").2 (by decide) (by decide)).2.2 (by decide)⟩

theorem lastIndexFrom_eq_none (c : Char) (l : List Char) :
    ∀ start : Nat, lastIndexFrom c start l = none ↔ c ∉ l := by
  induction l with
  | nil => intro start; simp [lastIndexFrom]
  | cons x xs ih =>
    intro start
    simp only [lastIndexFrom, List.mem_cons, not_or]
    cases hrec : lastIndexFrom c (start + 1) xs with
    | some i =>
      have hmem : ¬ c ∉ xs := fun h => by
        rw [(ih (start + 1)).2 h] at hrec
        exact Option.noConfusion hrec
      simp [hmem]
    | none =>
      have hnot : c ∉ xs := (ih (start + 1)).1 hrec
      by_cases hx : x = c
      · simp [hx]
      · have hx1 : ¬ c = x := fun h => hx h.symm
        simp [hx, hx1, hnot]

theorem lastIndexFrom_eq_some (c : Char) (l : List Char) :
    ∀ (start pos : Nat), lastIndexFrom c start l = some pos →
      ∃ before after, l = before ++ c :: after ∧ c ∉ after ∧ pos = start + before.length := by
  induction l with
  | nil => intro start pos h; simp [lastIndexFrom] at h
  | cons x xs ih =>
    intro start pos h
    simp only [lastIndexFrom] at h
    cases hrec : lastIndexFrom c (start + 1) xs with
    | some i =>
      rw [hrec] at h
      simp only [Option.some.injEq] at h
      obtain ⟨before, after, hl, hafter, hpos⟩ := ih (start + 1) i hrec
      refine ⟨x :: before, after, by rw [hl]; rfl, hafter, ?_⟩
      rw [← h, hpos, List.length_cons]
      omega
    | none =>
      rw [hrec] at h
      have hnot : c ∉ xs := (lastIndexFrom_eq_none c xs (start + 1)).1 hrec
      by_cases hx : x = c
      · simp only [hx, if_true, Option.some.injEq] at h
        exact ⟨[], xs, by rw [hx]; rfl, hnot, by simp [h]⟩
      · simp [hx] at h

theorem path_of_endsWithSlash (filename : String)
    (h : filename.data.getLast? = some '/') :
    path filename = ⟨filename.data.dropLast⟩ := by
  have hne : filename.data.isEmpty = false := by
    cases hd : filename.data with
    | nil => rw [hd] at h; simp at h
    | cons x xs => rfl
  have hb := (endsWithSlash_iff filename).2 h
  simp only [path, hne, hb, Bool.not_false, Bool.and_self, if_true, substr, List.drop_zero,
    List.dropLast_eq_take]

theorem path_of_not_endsWithSlash (filename : String)
    (h : filename.data.getLast? ≠ some '/') :
    path filename =
      match find_last_of filename '/' with
      | none => ""
      | some pos => substr filename 0 pos := by
  have hb : (filename.data[filename.data.length - 1]? == some '/') = false := by
    cases hc : (filename.data[filename.data.length - 1]? == some '/') with
    | false => rfl
    | true => exact absurd ((endsWithSlash_iff filename).1 hc) h
  simp only [path, hb, Bool.and_false, Bool.false_eq_true, if_false]

/-- C15: `path(filename)` is the string without its final `/` when it ends in
`/`; otherwise it is the empty string when the string has no `/`, and what
stands before the last `/` when it has one.  For a string with a `/` the result
is a prefix of it and shorter than it, and the result is never longer than the
string. -/
theorem path_spec (filename : String) :
    (filename.data.getLast? = some '/' →
      (path filename).data ++ ['/'] = filename.data) ∧
    (filename.data.getLast? ≠ some '/' → '/' ∉ filename.data → path filename = "") ∧
    (filename.data.getLast? ≠ some '/' → '/' ∈ filename.data →
      ∃ after, filename.data = (path filename).data ++ '/' :: after ∧ '/' ∉ after) ∧
    ('/' ∈ filename.data →
      (path filename).data <+: filename.data ∧
      (path filename).data.length < filename.data.length) ∧
    (path filename).data.length ≤ filename.data.length := by
  have hends : filename.data.getLast? = some '/' →
      (path filename).data ++ ['/'] = filename.data := by
    intro h
    rw [path_of_endsWithSlash filename h]
    exact List.dropLast_append_getLast? '/' (by simp [h])
  have hnone : filename.data.getLast? ≠ some '/' → '/' ∉ filename.data →
      path filename = "" := by
    intro h hno
    rw [path_of_not_endsWithSlash filename h]
    have : find_last_of filename '/' = none := (lastIndexFrom_eq_none '/' filename.data 0).2 hno
    rw [this]
  have hlast : filename.data.getLast? ≠ some '/' → '/' ∈ filename.data →
      ∃ after, filename.data = (path filename).data ++ '/' :: after ∧ '/' ∉ after := by
    intro h hmem
    rw [path_of_not_endsWithSlash filename h]
    cases hfind : find_last_of filename '/' with
    | none => exact absurd hmem ((lastIndexFrom_eq_none '/' filename.data 0).1 hfind)
    | some pos =>
      obtain ⟨before, after, hl, hafter, hpos⟩ :=
        lastIndexFrom_eq_some '/' filename.data 0 pos hfind
      refine ⟨after, ?_, hafter⟩
      have htake : List.take pos filename.data = before := by
        rw [hl]
        exact List.take_left' (by omega)
      simp only [substr, List.drop_zero, htake]
      exact hl
  have hproper : '/' ∈ filename.data →
      (path filename).data <+: filename.data ∧
      (path filename).data.length < filename.data.length := by
    intro hmem
    by_cases h : filename.data.getLast? = some '/'
    · have := hends h
      refine ⟨⟨['/'], this⟩, ?_⟩
      rw [← this, List.length_append]
      simp
    · obtain ⟨after, hl, _⟩ := hlast h hmem
      refine ⟨⟨'/' :: after, hl.symm⟩, ?_⟩
      have := congrArg List.length hl
      rw [List.length_append, List.length_cons] at this
      omega
  refine ⟨hends, hnone, hlast, hproper, ?_⟩
  by_cases hmem : '/' ∈ filename.data
  · exact Nat.le_of_lt (hproper hmem).2
  · have hne : filename.data.getLast? ≠ some '/' := by
      intro h
      exact hmem (List.mem_of_mem_getLast? (by simp [h]))
    rw [hnone hne hmem]
    exact Nat.zero_le _

/-- Witness of C15: a path, a file in a directory, and a bare file name. -/
theorem path_spec_witness :
    (path "usr/lib/").data ++ ['/'] = "usr/lib/".data ∧
    path "libfoo.so" = "" ∧
    (∃ after, "usr/lib/libfoo.so".data = (path "usr/lib/libfoo.so").data ++ '/' :: after ∧
      '/' ∉ after) ∧
    ((path "usr/lib/libfoo.so").data <+: "usr/lib/libfoo.so".data ∧
      (path "usr/lib/libfoo.so").data.length < "usr/lib/libfoo.so".data.length) :=
  ⟨(path_spec "usr/lib/").1 (by decide),
   (path_spec "libfoo.so").2.1 (by decide) (by decide),
   (path_spec "usr/lib/libfoo.so").2.2.1 (by decide) (by decide),
   (path_spec "usr/lib/libfoo.so").2.2.2.1 (by decide)⟩

end Directory

end Utility

end Corrade
